import Mathlib

/-!
Shallow embedding of `redux-hyper-action` (src/src/index.ts): a convention and
pure functions for constructing, validating and transitioning Redux action
records.  JavaScript runtime values are modelled by the inductive `JsValue`;
plain objects are ordered association lists of string keys (the code never
builds duplicate keys).  The impure inputs of the source — `new Date()` and
`uuidv4()` — are passed as explicit `now` / `fresh` string parameters, one per
call site, following the spec instruction to treat the clock as an
injectable capability.  Functions that `throw` in TypeScript return
`Except String _`.
-/

/-- JavaScript runtime values, as far as the library can observe them:
primitives, arrays, plain objects (ordered fields), `Error` instances,
functions and other class instances (e.g. `class Foo`, regexes). -/
inductive JsValue where
  | undefined : JsValue
  | null : JsValue
  | bool (b : Bool) : JsValue
  | num (n : Int) : JsValue
  | str (s : String) : JsValue
  | arr (elems : List JsValue) : JsValue
  | obj (fields : List (String × JsValue)) : JsValue
  | errObj (message : String) : JsValue
  | func (name : String) : JsValue
  | inst (className : String) : JsValue
deriving Repr

mutual

/-- Structural equality on values, the model of JavaScript `===` for the
comparisons the library performs.  `===` on primitives is value equality,
which this matches exactly; on reference types `===` is reference equality,
which structural equality over-approximates — the library only ever compares
`meta.sign`/`meta.phase` against string literals and `meta.id` against a
`meta.pid` that was copied from it, where the two notions agree. -/
def beqJs : JsValue → JsValue → Bool
  | .undefined, .undefined => true
  | .null, .null => true
  | .bool b, .bool c => b == c
  | .num m, .num n => m == n
  | .str s, .str t => s == t
  | .arr xs, .arr ys => beqJsList xs ys
  | .obj fs, .obj gs => beqJsFields fs gs
  | .errObj m, .errObj n => m == n
  | .func m, .func n => m == n
  | .inst m, .inst n => m == n
  | _, _ => false

/-- Pointwise `beqJs` on arrays. -/
def beqJsList : List JsValue → List JsValue → Bool
  | [], [] => true
  | x :: xs, y :: ys => beqJs x y && beqJsList xs ys
  | _, _ => false

/-- Pointwise `beqJs` on object field lists. -/
def beqJsFields : List (String × JsValue) → List (String × JsValue) → Bool
  | [], [] => true
  | (k, v) :: fs, (l, w) :: gs => k == l && beqJs v w && beqJsFields fs gs
  | _, _ => false

end

/-- `isPlainObject` from the `is-plain-object` package: true exactly for plain
key-value records, false for primitives, arrays, functions, class instances. -/
def isPlainObject : JsValue → Bool
  | .obj _ => true
  | _ => false

/-- Key lookup in an association-list object body: first match. -/
def lookupF (fs : List (String × JsValue)) (k : String) : Option JsValue :=
  (fs.find? (fun p => p.1 == k)).map Prod.snd

/-- JavaScript member access `v[k]`: yields `undefined` when the key is absent
or the receiver is not an object. -/
def getField (v : JsValue) (k : String) : JsValue :=
  match v with
  | .obj fs => (lookupF fs k).getD .undefined
  | _ => .undefined

/-- The JavaScript `k in v` operator on the plain objects the library builds
(own enumerable keys only; none of the checked keys occur on
`Object.prototype`). -/
def hasKey (v : JsValue) (k : String) : Bool :=
  match v with
  | .obj fs => fs.any (fun p => p.1 == k)
  | _ => false

/-- `Object.keys`. -/
def keys : JsValue → List String
  | .obj fs => fs.map Prod.fst
  | _ => []

/-- Setting one key in an object body, as object-spread-with-override does:
the value is replaced in place when the key exists (objects built by the code are
duplicate-free) and appended otherwise. -/
def setEntry : List (String × JsValue) → String → JsValue → List (String × JsValue)
  | [], k, v => [(k, v)]
  | (k₀, v₀) :: rest, k, v =>
      if k₀ == k then (k, v) :: rest else (k₀, v₀) :: setEntry rest k v

/-- A spread literal `{...base, k₁: v₁, ..., kₙ: vₙ}`; every use in the source
is guarded by validation, so `base` is a plain object there. -/
def objSpreadWith (base : JsValue) (updates : List (String × JsValue)) : JsValue :=
  match base with
  | .obj fs => .obj (updates.foldl (fun acc kv => setEntry acc kv.1 kv.2) fs)
  | _ => .obj (updates.foldl (fun acc kv => setEntry acc kv.1 kv.2) [])

/-- JavaScript truthiness, for `!!option?.async` and `!isAsync(action)`. -/
def truthy : JsValue → Bool
  | .undefined => false
  | .null => false
  | .bool b => b
  | .num n => decide (n ≠ 0)
  | .str s => decide (s ≠ "")
  | _ => true

/-- Optional chaining `v?.k`: `undefined` when `v` is `undefined`/`null`. -/
def optMember (v : JsValue) (k : String) : JsValue :=
  match v with
  | .undefined => .undefined
  | .null => .undefined
  | _ => getField v k

/-- `payload instanceof Error`. -/
def instanceofError : JsValue → Bool
  | .errObj _ => true
  | _ => false

/-- `typeof v === "string"`. -/
def isString : JsValue → Bool
  | .str _ => true
  | _ => false

/-- The JavaScript `v === s` comparison against a string literal: true exactly
for the equal string (no reference type is `===` to a string). -/
def jsEqStr (v : JsValue) (s : String) : Bool :=
  match v with
  | .str t => t == s
  | _ => false

def SIGN : String := "redux-hyper-action"

def UUID_NULL : String := "00000000-0000-0000-0000-000000000000"

def PHASE_STARTED : String := "started"

def PHASE_RUNNING : String := "running"

def PHASE_FINISH : String := "finish"

/-- Modelled from the spec: the name-based deterministic identifier generator
`uuidv5(name, namespace)` of the external `uuid` package (a black-box
collaborator, not part of src/).  Only determinism matters to the claims; it
is modelled as an injective tagging of its two inputs. -/
def uuidv5 (name : String) (ns : String) : String :=
  "uuidv5(" ++ ns ++ "," ++ name ++ ")"

def UUID_NAMESPACE : String := uuidv5 SIGN UUID_NULL

/-- Modelled from the spec: serialization of one object field, part of the
canonical serializer below. -/
def jsonFieldOf (k : String) (s : String) : String :=
  "\"" ++ k ++ "\":" ++ s

/-- Insertion of a serialized field into a key-sorted list, used to model the
deterministic key ordering of `fast-json-stable-stringify`. -/
def insertByKey (p : String × String) : List (String × String) → List (String × String)
  | [] => [p]
  | q :: rest => if (compare p.1 q.1).isLE then p :: q :: rest else q :: insertByKey p rest

/-- Key-sorting of serialized fields (insertion sort). -/
def sortByKey : List (String × String) → List (String × String)
  | [] => []
  | p :: rest => insertByKey p (sortByKey rest)

mutual

/-- Modelled from the spec: the canonical serializer
`fast-json-stable-stringify` (a black-box collaborator, not part of src/):
JSON text with object keys sorted deterministically.  `undefined`, functions
and class instances serialize as JSON.stringify does inside arrays; no claim
depends on the exact text, only on the serializer being a function of the
value. -/
def stringifyVal : JsValue → String
  | .undefined => "null"
  | .null => "null"
  | .bool b => if b then "true" else "false"
  | .num n => toString n
  | .str s => "\"" ++ s ++ "\""
  | .arr xs => "[" ++ String.intercalate "," (stringifyList xs) ++ "]"
  | .obj fs =>
      "\x7b" ++
        String.intercalate ","
          ((sortByKey (stringifyFields fs)).map (fun p => jsonFieldOf p.1 p.2)) ++
      "\x7d"
  | .errObj _ => "\x7b\x7d"
  | .func _ => "null"
  | .inst _ => "\x7b\x7d"

/-- Serialization of array elements, mutually with `stringifyVal`. -/
def stringifyList : List JsValue → List String
  | [] => []
  | x :: xs => stringifyVal x :: stringifyList xs

/-- Serialization of object fields, mutually with `stringifyVal`. -/
def stringifyFields : List (String × JsValue) → List (String × String)
  | [] => []
  | (k, v) :: fs => (k, stringifyVal v) :: stringifyFields fs

end

/-- `stringify` as imported from `fast-json-stable-stringify`. -/
def stringify (v : JsValue) : String := stringifyVal v

def ActionProperties : List String := ["type", "payload", "error", "meta"]

def ActionRequiredProperties : List String := ["type", "error", "meta"]

def MetaProperties : List String :=
  ["sign", "id", "pid", "phase", "progress", "ctime", "utime", "async", "uniq"]

def MetaRequiredProperties : List String := ["sign", "id", "ctime", "async", "uniq"]

/-- The diagnostic message of the `invalidAction` template (the serialized
form of the offending value; its exact text is irrelevant to every claim). -/
def invalidAction (action : JsValue) : String :=
  "Invalid Action. " ++ stringify action ++ "! <redux-saga-mate>"

/-- The diagnostic message of the `invalidAsyncAction` template. -/
def invalidAsyncAction (action : JsValue) : String :=
  "Invalid Async Action. " ++ stringify action ++ "! <redux-saga-mate>"

/-- Definition of `isValidAction`: the source chain of early `return false` guards,
written as the equivalent conjunction. -/
def isValidAction (action : JsValue) : Bool :=
  isPlainObject action &&
  ActionRequiredProperties.all (fun k => hasKey action k) &&
  (keys action).all (fun k => ActionProperties.contains k) &&
  isString (getField action "type") &&
  isPlainObject (getField action "meta") &&
  MetaRequiredProperties.all (fun k => hasKey (getField action "meta") k) &&
  (keys (getField action "meta")).all (fun k => MetaProperties.contains k) &&
  jsEqStr (getField (getField action "meta") "sign") SIGN

/-- `createActionId(type, payload, uniq)`: `uniq ? uuidv4() :
uuidv5(stringify([type, payload]), UUID_NAMESPACE)`.  The `uuidv4()` result of
this call is the explicit `fresh` parameter. -/
def createActionId (fresh : String) (type : String) (payload : JsValue) (uniq : Bool) : String :=
  if uniq then fresh else uuidv5 (stringify (JsValue.arr [JsValue.str type, payload])) UUID_NAMESPACE

/-- Definition of `createAction(type, payload, option)`.  Note that the sync branch
calls `createActionId(type, payload)` without its third argument, so the
TypeScript default `uniq = false` applies there regardless of the option. -/
def createAction (fresh : String) (now : String) (type : String)
    (payload : JsValue) (option : JsValue) : JsValue :=
  let async := truthy (optMember option "async")
  let uniq := truthy (optMember option "uniq")
  let meta : JsValue :=
    if async then
      JsValue.obj [("sign", JsValue.str SIGN),
        ("id", JsValue.str (createActionId fresh type payload uniq)),
        ("pid", JsValue.undefined),
        ("phase", JsValue.str PHASE_STARTED),
        ("progress", JsValue.num 0),
        ("ctime", JsValue.str now),
        ("utime", JsValue.undefined),
        ("async", JsValue.bool async),
        ("uniq", JsValue.bool uniq)]
    else
      JsValue.obj [("sign", JsValue.str SIGN),
        ("id", JsValue.str (createActionId fresh type payload false)),
        ("pid", JsValue.undefined),
        ("ctime", JsValue.str now),
        ("async", JsValue.bool async),
        ("uniq", JsValue.bool uniq)]
  JsValue.obj [("type", JsValue.str type),
    ("payload", payload),
    ("error", JsValue.bool (instanceofError payload)),
    ("meta", meta)]

/-- `createAsyncAction(type, payload)` = `createAction(type, payload, {async:
true, uniq: false})`. -/
def createAsyncAction (fresh : String) (now : String) (type : String) (payload : JsValue) : JsValue :=
  createAction fresh now type payload
    (JsValue.obj [("async", JsValue.bool true), ("uniq", JsValue.bool false)])

/-- `createAsyncUniqueAction(type, payload)` = `createAction(type, payload,
{async: true, uniq: true})`. -/
def createAsyncUniqueAction (fresh : String) (now : String) (type : String) (payload : JsValue) : JsValue :=
  createAction fresh now type payload
    (JsValue.obj [("async", JsValue.bool true), ("uniq", JsValue.bool true)])

/-- `idOfAction`: throws on invalid input, else returns `action.meta.id`. -/
def idOfAction (action : JsValue) : Except String JsValue :=
  if !(isValidAction action) then Except.error (invalidAction action)
  else Except.ok (getField (getField action "meta") "id")

/-- `pidOfAction`: throws on invalid input, else returns `action.meta.pid`. -/
def pidOfAction (action : JsValue) : Except String JsValue :=
  if !(isValidAction action) then Except.error (invalidAction action)
  else Except.ok (getField (getField action "meta") "pid")

/-- `isAsync`: throws on invalid input, else returns `action.meta.async`
(whatever value sits there — the validator does not inspect it). -/
def isAsync (action : JsValue) : Except String JsValue :=
  if !(isValidAction action) then Except.error (invalidAction action)
  else Except.ok (getField (getField action "meta") "async")

/-- `isUnique`: throws on invalid input, else returns `action.meta.uniq`. -/
def isUnique (action : JsValue) : Except String JsValue :=
  if !(isValidAction action) then Except.error (invalidAction action)
  else Except.ok (getField (getField action "meta") "uniq")

/-- `isStarted`: propagates the throw of `isAsync`, throws on a falsy
`meta.async`, else tests `meta.phase === PHASE_STARTED`. -/
def isStarted (action : JsValue) : Except String Bool :=
  match isAsync action with
  | Except.error e => Except.error e
  | Except.ok a =>
      if !(truthy a) then Except.error (invalidAsyncAction action)
      else Except.ok (jsEqStr (getField (getField action "meta") "phase") PHASE_STARTED)

/-- `isRunning`. -/
def isRunning (action : JsValue) : Except String Bool :=
  match isAsync action with
  | Except.error e => Except.error e
  | Except.ok a =>
      if !(truthy a) then Except.error (invalidAsyncAction action)
      else Except.ok (jsEqStr (getField (getField action "meta") "phase") PHASE_RUNNING)

/-- `isFinished`. -/
def isFinished (action : JsValue) : Except String Bool :=
  match isAsync action with
  | Except.error e => Except.error e
  | Except.ok a =>
      if !(truthy a) then Except.error (invalidAsyncAction action)
      else Except.ok (jsEqStr (getField (getField action "meta") "phase") PHASE_FINISH)

/-- `continueWith(payload, progress)(action)`: `{...action, payload, meta:
{...action.meta, phase: PHASE_RUNNING, progress, utime: now}}`.  The
TypeScript default for `progress` is 0. -/
def continueWith (payload : JsValue) (progress : Int) (now : String)
    (action : JsValue) : Except String JsValue :=
  match isAsync action with
  | Except.error e => Except.error e
  | Except.ok a =>
      if !(truthy a) then Except.error (invalidAsyncAction action)
      else Except.ok (objSpreadWith action
        [("payload", payload),
         ("meta", objSpreadWith (getField action "meta")
            [("phase", JsValue.str PHASE_RUNNING),
             ("progress", JsValue.num progress),
             ("utime", JsValue.str now)])])

/-- `succeedWith(payload)(action)`: phase `PHASE_FINISH`, progress 100. -/
def succeedWith (payload : JsValue) (now : String) (action : JsValue) : Except String JsValue :=
  match isAsync action with
  | Except.error e => Except.error e
  | Except.ok a =>
      if !(truthy a) then Except.error (invalidAsyncAction action)
      else Except.ok (objSpreadWith action
        [("payload", payload),
         ("meta", objSpreadWith (getField action "meta")
            [("phase", JsValue.str PHASE_FINISH),
             ("progress", JsValue.num 100),
             ("utime", JsValue.str now)])])

/-- `failWith(error)(action)`: payload set to the error value, `error: true`,
phase `PHASE_FINISH`, progress 100. -/
def failWith (error : JsValue) (now : String) (action : JsValue) : Except String JsValue :=
  match isAsync action with
  | Except.error e => Except.error e
  | Except.ok a =>
      if !(truthy a) then Except.error (invalidAsyncAction action)
      else Except.ok (objSpreadWith action
        [("payload", error),
         ("error", JsValue.bool true),
         ("meta", objSpreadWith (getField action "meta")
            [("phase", JsValue.str PHASE_FINISH),
             ("progress", JsValue.num 100),
             ("utime", JsValue.str now)])])

/-- `makeChildOf(parent)(child)`: both must validate; result is the child
with `meta.pid` set to the id of the parent and `meta.utime` refreshed. -/
def makeChildOf (now : String) (parent : JsValue) (child : JsValue) : Except String JsValue :=
  if !(isValidAction parent) || !(isValidAction child) then
    Except.error (invalidAction (JsValue.obj [("parent", parent), ("child", child)]))
  else
    match idOfAction parent with
    | Except.error e => Except.error e
    | Except.ok pid =>
        Except.ok (objSpreadWith child
          [("meta", objSpreadWith (getField child "meta")
             [("pid", pid), ("utime", JsValue.str now)])])

/-- `isChildOf(parent)(child)`: both must validate; tests `parent.meta.id ===
child.meta.pid`. -/
def isChildOf (parent : JsValue) (child : JsValue) : Except String Bool :=
  if !(isValidAction parent) || !(isValidAction child) then
    Except.error (invalidAction (JsValue.obj [("parent", parent), ("child", child)]))
  else
    Except.ok (beqJs (getField (getField parent "meta") "id")
                     (getField (getField child "meta") "pid"))

/-- Whether a call signalled a usage error (threw). -/
def throws {α : Type} : Except String α → Bool
  | Except.error _ => true
  | Except.ok _ => false

/-- Convenient access to a metadata field of an action. -/
def metaField (a : JsValue) (k : String) : JsValue :=
  getField (getField a "meta") k

/-- A concrete async action, `createAsyncAction("fetch", "x")`, with the
random source and the clock instantiated by fixed strings. -/
def sampleAsync : JsValue := createAsyncAction "RANDOM-0" "TIME-0" "fetch" (JsValue.str "x")

/-- A concrete sync action, `createAction("save", "y")`. -/
def sampleSync : JsValue := createAction "RANDOM-1" "TIME-1" "save" (JsValue.str "y") JsValue.undefined

/-- A concrete parent action for lineage claims. -/
def sampleParent : JsValue := createAction "RANDOM-2" "TIME-2" "parent" JsValue.undefined JsValue.undefined

/-- A concrete hand-written valid action whose meta has `async = false` yet
carries `phase` and `progress` keys. -/
def syncPhased : JsValue := JsValue.obj [("type", JsValue.str "save"),
  ("error", JsValue.bool false),
  ("meta", JsValue.obj [("sign", JsValue.str SIGN), ("id", JsValue.str "id-3"),
    ("ctime", JsValue.str "TIME-3"), ("async", JsValue.bool false),
    ("uniq", JsValue.bool false), ("phase", JsValue.str "started"),
    ("progress", JsValue.num 0)])]

/-- A concrete valid async action whose top-level `error` field is true. -/
def errorTrueAsync : JsValue := JsValue.obj [("type", JsValue.str "t"),
  ("payload", JsValue.undefined), ("error", JsValue.bool true),
  ("meta", JsValue.obj [("sign", JsValue.str SIGN), ("id", JsValue.str "id-4"),
    ("ctime", JsValue.str "TIME-4"), ("async", JsValue.bool true),
    ("uniq", JsValue.bool false), ("phase", JsValue.str "running"),
    ("progress", JsValue.num 10)])]

/-- A concrete well-shaped record carrying junk values: `error` a string,
`id` a number, `ctime` null, a function as payload, `async` a string. -/
def weirdAction : JsValue := JsValue.obj [("type", JsValue.str "t"),
  ("payload", JsValue.func "f"), ("error", JsValue.str "yes"),
  ("meta", JsValue.obj [("sign", JsValue.str SIGN), ("id", JsValue.num 42),
    ("ctime", JsValue.null), ("async", JsValue.str "nope"),
    ("uniq", JsValue.num 0)])]

/-- The fields of an action that the lifecycle transitions must copy
unchanged: the top-level `type` and the metadata fields `id`, `ctime`,
`sign`, `pid`, `async`, `uniq`. -/
def preservesIdentityFrame (a x : JsValue) : Prop :=
  getField x "type" = getField a "type" ∧
  metaField x "id" = metaField a "id" ∧
  metaField x "ctime" = metaField a "ctime" ∧
  metaField x "sign" = metaField a "sign" ∧
  metaField x "pid" = metaField a "pid" ∧
  metaField x "async" = metaField a "async" ∧
  metaField x "uniq" = metaField a "uniq"

theorem lookupF_setEntry : ∀ (fs : List (String × JsValue)) (k k₂ : String) (v : JsValue),
    lookupF (setEntry fs k v) k₂ = if k₂ = k then some v else lookupF fs k₂
  | [], k, k₂, v => by
      by_cases h : k₂ = k
      · subst h
        simp [setEntry, lookupF, List.find?]
      · simp [setEntry, lookupF, List.find?,
          show (k == k₂) = false from beq_eq_false_iff_ne.mpr (Ne.symm h), h]
  | (k₀, v₀) :: tl, k, k₂, v => by
      simp only [setEntry]
      by_cases h0 : k₀ = k
      · subst h0
        rw [if_pos (by simp)]
        by_cases h : k₂ = k₀
        · subst h
          simp [lookupF, List.find?]
        · simp [lookupF, List.find?,
            show (k₀ == k₂) = false from beq_eq_false_iff_ne.mpr (Ne.symm h), h]
      · rw [if_neg (by simp [h0])]
        by_cases h : k₂ = k₀
        · subst h
          simp [lookupF, List.find?, h0]
        · simp only [lookupF, List.find?,
            show (k₀ == k₂) = false from beq_eq_false_iff_ne.mpr (fun e => h e.symm)]
          exact lookupF_setEntry tl k k₂ v

theorem mem_map_fst_setEntry : ∀ (fs : List (String × JsValue)) (k l : String) (v : JsValue),
    l ∈ (setEntry fs k v).map Prod.fst ↔ l = k ∨ l ∈ fs.map Prod.fst
  | [], k, l, v => by simp [setEntry]
  | (k₀, v₀) :: tl, k, l, v => by
      by_cases h0 : k₀ = k
      · subst h0
        simp [setEntry]
      · simp only [setEntry, beq_iff_eq, if_neg h0, List.map, List.mem_cons]
        rw [mem_map_fst_setEntry tl k l v]
        tauto

theorem hasKey_obj_iff (fs : List (String × JsValue)) (l : String) :
    hasKey (JsValue.obj fs) l = true ↔ l ∈ fs.map Prod.fst := by
  simp [hasKey, List.any_eq_true, List.mem_map]

theorem isPlainObject_iff (v : JsValue) :
    isPlainObject v = true ↔ ∃ fs, v = JsValue.obj fs := by
  cases v <;> simp [isPlainObject]

theorem isValidAction_eq_true_iff (a : JsValue) :
    isValidAction a = true ↔
      isPlainObject a = true ∧
      (∀ k ∈ ActionRequiredProperties, hasKey a k = true) ∧
      (∀ k ∈ keys a, k ∈ ActionProperties) ∧
      isString (getField a "type") = true ∧
      isPlainObject (getField a "meta") = true ∧
      (∀ k ∈ MetaRequiredProperties, hasKey (getField a "meta") k = true) ∧
      (∀ k ∈ keys (getField a "meta"), k ∈ MetaProperties) ∧
      jsEqStr (getField (getField a "meta") "sign") SIGN = true := by
  simp [isValidAction, Bool.and_eq_true, List.all_eq_true]
  tauto

mutual

theorem beqJs_refl : ∀ a, beqJs a a = true
  | .undefined => by simp [beqJs]
  | .null => by simp [beqJs]
  | .bool b => by simp [beqJs]
  | .num n => by simp [beqJs]
  | .str s => by simp [beqJs]
  | .arr xs => by simp [beqJs]; exact beqJsList_refl xs
  | .obj fs => by simp [beqJs]; exact beqJsFields_refl fs
  | .errObj m => by simp [beqJs]
  | .func m => by simp [beqJs]
  | .inst m => by simp [beqJs]

theorem beqJsList_refl : ∀ xs, beqJsList xs xs = true
  | [] => by simp [beqJsList]
  | x :: xs => by
      simp [beqJsList]
      exact ⟨beqJs_refl x, beqJsList_refl xs⟩

theorem beqJsFields_refl : ∀ fs, beqJsFields fs fs = true
  | [] => by simp [beqJsFields]
  | (k, v) :: fs => by
      simp [beqJsFields]
      exact ⟨beqJs_refl v, beqJsFields_refl fs⟩

end

mutual

theorem beqJs_sound : ∀ a b, beqJs a b = true → a = b
  | .undefined, b, h => by cases b <;> simp_all [beqJs]
  | .null, b, h => by cases b <;> simp_all [beqJs]
  | .bool x, b, h => by cases b <;> simp_all [beqJs]
  | .num x, b, h => by cases b <;> simp_all [beqJs]
  | .str x, b, h => by cases b <;> simp_all [beqJs]
  | .arr xs, b, h => by
      cases b <;> simp_all [beqJs]
      exact beqJsList_sound xs _ h
  | .obj fs, b, h => by
      cases b <;> simp_all [beqJs]
      exact beqJsFields_sound fs _ h
  | .errObj x, b, h => by cases b <;> simp_all [beqJs]
  | .func x, b, h => by cases b <;> simp_all [beqJs]
  | .inst x, b, h => by cases b <;> simp_all [beqJs]

theorem beqJsList_sound : ∀ xs ys, beqJsList xs ys = true → xs = ys
  | [], [], _ => rfl
  | x :: xs, y :: ys, h => by
      simp [beqJsList] at h
      rw [beqJs_sound x y h.1, beqJsList_sound xs ys h.2]
  | [], _ :: _, h => by simp [beqJsList] at h
  | _ :: _, [], h => by simp [beqJsList] at h

theorem beqJsFields_sound : ∀ fs gs, beqJsFields fs gs = true → fs = gs
  | [], [], _ => rfl
  | (k, v) :: fs, (l, w) :: gs, h => by
      simp [beqJsFields] at h
      rw [h.1.1, beqJs_sound v w h.1.2, beqJsFields_sound fs gs h.2]
  | [], _ :: _, h => by simp [beqJsFields] at h
  | _ :: _, [], h => by simp [beqJsFields] at h

end

theorem beqJs_eq_true_iff (a b : JsValue) : beqJs a b = true ↔ a = b :=
  ⟨beqJs_sound a b, fun h => h ▸ beqJs_refl a⟩

theorem valid_exists_obj (a : JsValue) (h : isValidAction a = true) :
    ∃ fs, a = JsValue.obj fs :=
  (isPlainObject_iff a).mp ((isValidAction_eq_true_iff a).mp h).1

theorem valid_meta_exists_obj (a : JsValue) (h : isValidAction a = true) :
    ∃ ms, getField a "meta" = JsValue.obj ms :=
  (isPlainObject_iff _).mp ((isValidAction_eq_true_iff a).mp h).2.2.2.2.1

theorem continueWith_eq_ok (p : JsValue) (n : Int) (now : String) (a : JsValue)
    (h : isValidAction a = true) (ha : truthy (metaField a "async") = true) :
    continueWith p n now a = Except.ok (objSpreadWith a
      [("payload", p),
       ("meta", objSpreadWith (getField a "meta")
          [("phase", JsValue.str PHASE_RUNNING),
           ("progress", JsValue.num n),
           ("utime", JsValue.str now)])]) := by
  simp only [metaField] at ha
  simp [continueWith, isAsync, h, ha]

theorem succeedWith_eq_ok (p : JsValue) (now : String) (a : JsValue)
    (h : isValidAction a = true) (ha : truthy (metaField a "async") = true) :
    succeedWith p now a = Except.ok (objSpreadWith a
      [("payload", p),
       ("meta", objSpreadWith (getField a "meta")
          [("phase", JsValue.str PHASE_FINISH),
           ("progress", JsValue.num 100),
           ("utime", JsValue.str now)])]) := by
  simp only [metaField] at ha
  simp [succeedWith, isAsync, h, ha]

theorem failWith_eq_ok (e : JsValue) (now : String) (a : JsValue)
    (h : isValidAction a = true) (ha : truthy (metaField a "async") = true) :
    failWith e now a = Except.ok (objSpreadWith a
      [("payload", e),
       ("error", JsValue.bool true),
       ("meta", objSpreadWith (getField a "meta")
          [("phase", JsValue.str PHASE_FINISH),
           ("progress", JsValue.num 100),
           ("utime", JsValue.str now)])]) := by
  simp only [metaField] at ha
  simp [failWith, isAsync, h, ha]

theorem makeChildOf_eq_ok (now : String) (parent child : JsValue)
    (hp : isValidAction parent = true) (hc : isValidAction child = true) :
    makeChildOf now parent child = Except.ok (objSpreadWith child
      [("meta", objSpreadWith (getField child "meta")
         [("pid", metaField parent "id"),
          ("utime", JsValue.str now)])]) := by
  simp [makeChildOf, idOfAction, hp, hc, metaField]

/-- C6: for every valid async action `a` and each transition in
{continueWith, succeedWith, failWith}, the result has `meta.id` and
`meta.ctime` equal to those of `a`, and `type`, `meta.sign`, `meta.pid`,
`meta.async`, `meta.uniq` are copied unchanged as well. -/
theorem claimC6_transitions_preserve_identity (a p e : JsValue) (n : Int) (now : String)
    (h : isValidAction a = true) (ha : truthy (metaField a "async") = true) :
    ∃ b c d,
      continueWith p n now a = Except.ok b ∧
      succeedWith p now a = Except.ok c ∧
      failWith e now a = Except.ok d ∧
      preservesIdentityFrame a b ∧
      preservesIdentityFrame a c ∧
      preservesIdentityFrame a d := by
  obtain ⟨fs, rfl⟩ := valid_exists_obj a h
  obtain ⟨ms, hm⟩ := valid_meta_exists_obj _ h
  refine ⟨_, _, _, continueWith_eq_ok p n now _ h ha, succeedWith_eq_ok p now _ h ha,
    failWith_eq_ok e now _ h ha, ?_, ?_, ?_⟩ <;>
  · simp only [preservesIdentityFrame, metaField]
    rw [hm]
    simp [objSpreadWith, getField, lookupF_setEntry]

/-- Witness for C6 at the concrete async action `sampleAsync`. -/
theorem claimC6_witness :
    ∃ b c d,
      continueWith (JsValue.str "p") 50 "TIME-9" sampleAsync = Except.ok b ∧
      succeedWith (JsValue.str "p") "TIME-9" sampleAsync = Except.ok c ∧
      failWith (JsValue.errObj "bad") "TIME-9" sampleAsync = Except.ok d ∧
      preservesIdentityFrame sampleAsync b ∧
      preservesIdentityFrame sampleAsync c ∧
      preservesIdentityFrame sampleAsync d :=
  claimC6_transitions_preserve_identity sampleAsync (JsValue.str "p") (JsValue.errObj "bad")
    50 "TIME-9" (by rfl) (by rfl)

theorem lookupF_foldl_setEntry_notmem :
    ∀ (ts fs : List (String × JsValue)) (k : String), k ∉ ts.map Prod.fst →
      lookupF (ts.foldl (fun acc kv => setEntry acc kv.1 kv.2) fs) k = lookupF fs k
  | [], _, _, _ => rfl
  | (k₀, v₀) :: ts, fs, k, h => by
      simp only [List.map, List.mem_cons, not_or] at h
      simp only [List.foldl]
      rw [lookupF_foldl_setEntry_notmem ts _ k h.2, lookupF_setEntry]
      simp [h.1]

theorem mem_map_fst_foldl_setEntry :
    ∀ (ts fs : List (String × JsValue)) (l : String),
      l ∈ (ts.foldl (fun acc kv => setEntry acc kv.1 kv.2) fs).map Prod.fst ↔
        l ∈ ts.map Prod.fst ∨ l ∈ fs.map Prod.fst
  | [], fs, l => by simp
  | (k₀, v₀) :: ts, fs, l => by
      simp only [List.foldl, List.map, List.mem_cons]
      rw [mem_map_fst_foldl_setEntry ts _ l, mem_map_fst_setEntry]
      tauto

theorem isValidAction_objSpreadWith (a : JsValue) (h : isValidAction a = true)
    (ts : List (String × JsValue)) (M : JsValue) (mups : List (String × JsValue))
    (hM : M = objSpreadWith (getField a "meta") mups)
    (hts : ∀ k ∈ ts.map Prod.fst, k ∈ ActionProperties ∧ ¬(k = "type") ∧ ¬(k = "meta"))
    (hmu : ∀ k ∈ mups.map Prod.fst, k ∈ MetaProperties ∧ ¬(k = "sign")) :
    isValidAction (objSpreadWith a (ts ++ [("meta", M)])) = true := by
  obtain ⟨fs, rfl⟩ := valid_exists_obj a h
  obtain ⟨ms, hm⟩ := valid_meta_exists_obj _ h
  rw [isValidAction_eq_true_iff] at h
  obtain ⟨-, h2, h3, h4, -, h6, h7, h8⟩ := h
  rw [hm] at hM
  have hspread : objSpreadWith (JsValue.obj fs) (ts ++ [("meta", M)]) =
      JsValue.obj (setEntry (ts.foldl (fun acc kv => setEntry acc kv.1 kv.2) fs) "meta" M) := by
    simp [objSpreadWith, List.foldl_append]
  have hMeq : M = JsValue.obj (mups.foldl (fun acc kv => setEntry acc kv.1 kv.2) ms) := by
    simpa [objSpreadWith] using hM
  rw [hspread, isValidAction_eq_true_iff]
  have hget : ∀ k : String, ¬(k = "meta") → k ∉ ts.map Prod.fst →
      getField (JsValue.obj (setEntry (ts.foldl (fun acc kv => setEntry acc kv.1 kv.2) fs) "meta" M)) k
        = getField (JsValue.obj fs) k := by
    intro k hk hk2
    simp only [getField]
    rw [lookupF_setEntry, if_neg hk, lookupF_foldl_setEntry_notmem ts fs k hk2]
  have hmetaget :
      getField (JsValue.obj (setEntry (ts.foldl (fun acc kv => setEntry acc kv.1 kv.2) fs) "meta" M)) "meta"
        = M := by
    simp only [getField]
    rw [lookupF_setEntry]
    simp
  have hkeys : ∀ l : String,
      l ∈ keys (JsValue.obj (setEntry (ts.foldl (fun acc kv => setEntry acc kv.1 kv.2) fs) "meta" M)) ↔
        l = "meta" ∨ l ∈ ts.map Prod.fst ∨ l ∈ fs.map Prod.fst := by
    intro l
    simp only [keys]
    rw [mem_map_fst_setEntry, mem_map_fst_foldl_setEntry]
  have hmkeys : ∀ l : String,
      l ∈ keys M ↔ l ∈ mups.map Prod.fst ∨ l ∈ ms.map Prod.fst := by
    intro l
    rw [hMeq]
    simp only [keys]
    rw [mem_map_fst_foldl_setEntry]
  have hnotts : "type" ∉ ts.map Prod.fst := fun hin => ((hts _ hin).2.1) rfl
  have hmetats : "meta" ∉ ts.map Prod.fst := fun hin => ((hts _ hin).2.2) rfl
  have hsignmu : "sign" ∉ mups.map Prod.fst := fun hin => ((hmu _ hin).2) rfl
  have hmget : ∀ k : String, k ∉ mups.map Prod.fst →
      getField M k = getField (JsValue.obj ms) k := by
    intro k hk2
    rw [hMeq]
    simp only [getField]
    rw [lookupF_foldl_setEntry_notmem mups ms k hk2]
  refine ⟨rfl, ?_, ?_, ?_, ?_, ?_, ?_, ?_⟩
  · intro k hk
    rw [hasKey_obj_iff]
    rw [keys] at hkeys
    rw [hkeys k]
    by_cases hk0 : k = "meta"
    · exact Or.inl hk0
    · refine Or.inr (Or.inr ?_)
      have := h2 k hk
      rwa [hasKey_obj_iff] at this
  · intro k hk
    rw [hkeys k] at hk
    rcases hk with hk | hk | hk
    · subst hk
      simp [ActionProperties]
    · exact (hts k hk).1
    · exact h3 k hk
  · rw [hget "type" (by simp) hnotts]
    exact h4
  · rw [hmetaget, hMeq]
    rfl
  · intro k hk
    rw [hmetaget, hMeq, hasKey_obj_iff, mem_map_fst_foldl_setEntry]
    refine Or.inr ?_
    have := h6 k hk
    rw [hm, hasKey_obj_iff] at this
    exact this
  · intro k hk
    rw [hmetaget] at hk
    rw [hmkeys k] at hk
    rcases hk with hk | hk
    · exact (hmu k hk).1
    · refine h7 k ?_
      rw [hm]
      exact hk
  · rw [hmetaget, hmget "sign" hsignmu, ← hm]
    exact h8

/-- C10: validity is preserved by every producing operation — for a valid
action `a` with truthy `meta.async`, each of continueWith, succeedWith,
failWith yields a valid action, and for valid `parent`/`child`,
makeChildOf yields a valid action. -/
theorem claimC10_validity_preserved (a parent child p e : JsValue) (n : Int) (now : String)
    (h : isValidAction a = true) (ha : truthy (metaField a "async") = true)
    (hp : isValidAction parent = true) (hc : isValidAction child = true) :
    (∃ b, continueWith p n now a = Except.ok b ∧ isValidAction b = true) ∧
    (∃ c, succeedWith p now a = Except.ok c ∧ isValidAction c = true) ∧
    (∃ d, failWith e now a = Except.ok d ∧ isValidAction d = true) ∧
    (∃ r, makeChildOf now parent child = Except.ok r ∧ isValidAction r = true) := by
  refine ⟨⟨_, continueWith_eq_ok p n now a h ha, ?_⟩,
    ⟨_, succeedWith_eq_ok p now a h ha, ?_⟩,
    ⟨_, failWith_eq_ok e now a h ha, ?_⟩,
    ⟨_, makeChildOf_eq_ok now parent child hp hc, ?_⟩⟩
  · exact isValidAction_objSpreadWith a h [("payload", p)] _
      [("phase", JsValue.str PHASE_RUNNING), ("progress", JsValue.num n),
       ("utime", JsValue.str now)] rfl
      (by simp [ActionProperties]) (by simp [MetaProperties])
  · exact isValidAction_objSpreadWith a h [("payload", p)] _
      [("phase", JsValue.str PHASE_FINISH), ("progress", JsValue.num 100),
       ("utime", JsValue.str now)] rfl
      (by simp [ActionProperties]) (by simp [MetaProperties])
  · exact isValidAction_objSpreadWith a h [("payload", e), ("error", JsValue.bool true)] _
      [("phase", JsValue.str PHASE_FINISH), ("progress", JsValue.num 100),
       ("utime", JsValue.str now)] rfl
      (by simp [ActionProperties]) (by simp [MetaProperties])
  · exact isValidAction_objSpreadWith child hc [] _
      [("pid", metaField parent "id"), ("utime", JsValue.str now)] rfl
      (by simp) (by simp [MetaProperties])

/-- Witness for C10 at concrete actions. -/
theorem claimC10_witness :
    (∃ b, continueWith (JsValue.str "p") 50 "TIME-9" sampleAsync = Except.ok b ∧
      isValidAction b = true) ∧
    (∃ c, succeedWith (JsValue.str "p") "TIME-9" sampleAsync = Except.ok c ∧
      isValidAction c = true) ∧
    (∃ d, failWith (JsValue.errObj "bad") "TIME-9" sampleAsync = Except.ok d ∧
      isValidAction d = true) ∧
    (∃ r, makeChildOf "TIME-9" sampleParent sampleSync = Except.ok r ∧
      isValidAction r = true) :=
  claimC10_validity_preserved sampleAsync sampleParent sampleSync (JsValue.str "p")
    (JsValue.errObj "bad") 50 "TIME-9" (by rfl) (by rfl) (by rfl) (by rfl)

/-- C3 counterexample: `syncPhased` has `meta.async = false` and carries
`phase` and `progress` keys, yet `isValidAction` accepts it — refuting the
claim that such a value is rejected. -/
theorem claimC3_counterexample :
    metaField syncPhased "async" = JsValue.bool false ∧
    hasKey (getField syncPhased "meta") "phase" = true ∧
    hasKey (getField syncPhased "meta") "progress" = true ∧
    isValidAction syncPhased = true :=
  ⟨rfl, rfl, rfl, rfl⟩

/-- C3 (amended): the meta key check of the validator is one fixed
required-within-allowed test, insensitive to `meta.async`: every valid
action has a meta containing all required keys and only keys from the single
allowed list (which always includes `phase` and `progress`), and extending
the meta of any valid action with `phase` and `progress` keys preserves validity
— in particular a value whose meta has `async = false` but contains `phase`
or `progress` keys is accepted, not rejected. -/
theorem claimC3_meta_key_check (a : JsValue) (h : isValidAction a = true) :
    (∀ k ∈ MetaRequiredProperties, hasKey (getField a "meta") k = true) ∧
    (∀ k ∈ keys (getField a "meta"), k ∈ MetaProperties) ∧
    isValidAction (objSpreadWith a [("meta", objSpreadWith (getField a "meta")
      [("phase", JsValue.str PHASE_STARTED), ("progress", JsValue.num 0)])]) = true := by
  refine ⟨((isValidAction_eq_true_iff a).mp h).2.2.2.2.2.1,
    ((isValidAction_eq_true_iff a).mp h).2.2.2.2.2.2.1, ?_⟩
  exact isValidAction_objSpreadWith a h [] _
    [("phase", JsValue.str PHASE_STARTED), ("progress", JsValue.num 0)] rfl
    (by simp) (by simp [MetaProperties])

/-- Witness for C3 (amended) at the concrete sync action `sampleSync`. -/
theorem claimC3_witness :
    (∀ k ∈ MetaRequiredProperties, hasKey (getField sampleSync "meta") k = true) ∧
    (∀ k ∈ keys (getField sampleSync "meta"), k ∈ MetaProperties) ∧
    isValidAction (objSpreadWith sampleSync [("meta", objSpreadWith (getField sampleSync "meta")
      [("phase", JsValue.str PHASE_STARTED), ("progress", JsValue.num 0)])]) = true :=
  claimC3_meta_key_check sampleSync (by rfl)

/-- C4 counterexample: on the valid async action `errorTrueAsync`, whose
`error` field is true, `continueWith` returns an action whose `error` field
is still true — refuting the claim that the resulting `error` is false. -/
theorem claimC4_counterexample :
    isValidAction errorTrueAsync = true ∧
    getField errorTrueAsync "error" = JsValue.bool true ∧
    ∃ b, continueWith (JsValue.str "p") 5 "TIME-9" errorTrueAsync = Except.ok b ∧
      getField b "error" = JsValue.bool true ∧
      ¬(getField b "error" = JsValue.bool false) := by
  refine ⟨rfl, rfl, _, rfl, rfl, ?_⟩
  exact fun hc => Bool.noConfusion (JsValue.bool.inj hc)

/-- C4 (amended): for every valid async action `a`, `continueWith(p, n)(a)`
returns a new action whose `error` field equals the input `error` field
(it is not reset, so it is false only when the input field was), whose payload
is `p`, whose `meta.phase` is the in-progress stage, whose `meta.progress`
is `n`, and whose `meta.utime` is refreshed to the current time. -/
theorem claimC4_continueWith_fields (a p : JsValue) (n : Int) (now : String)
    (h : isValidAction a = true) (ha : truthy (metaField a "async") = true) :
    ∃ b, continueWith p n now a = Except.ok b ∧
      getField b "error" = getField a "error" ∧
      getField b "payload" = p ∧
      metaField b "phase" = JsValue.str PHASE_RUNNING ∧
      metaField b "progress" = JsValue.num n ∧
      metaField b "utime" = JsValue.str now := by
  obtain ⟨fs, rfl⟩ := valid_exists_obj a h
  obtain ⟨ms, hm⟩ := valid_meta_exists_obj _ h
  refine ⟨_, continueWith_eq_ok p n now _ h ha, ?_⟩
  simp only [metaField]
  rw [hm]
  simp [objSpreadWith, getField, lookupF_setEntry]

/-- Witness for C4 (amended) at `errorTrueAsync`. -/
theorem claimC4_witness :
    ∃ b, continueWith (JsValue.str "p") 5 "TIME-9" errorTrueAsync = Except.ok b ∧
      getField b "error" = getField errorTrueAsync "error" ∧
      getField b "payload" = JsValue.str "p" ∧
      metaField b "phase" = JsValue.str PHASE_RUNNING ∧
      metaField b "progress" = JsValue.num 5 ∧
      metaField b "utime" = JsValue.str "TIME-9" :=
  claimC4_continueWith_fields errorTrueAsync (JsValue.str "p") 5 "TIME-9" (by rfl) (by rfl)

/-- C5 counterexample: `continueWith` stores the supplied progress value 150
unchanged, producing an action whose `meta.progress` lies outside [0, 100] —
refuting the claim that every produced action has progress within [0, 100]. -/
theorem claimC5_counterexample :
    ∃ b, continueWith (JsValue.str "p") 150 "TIME-9" sampleAsync = Except.ok b ∧
      metaField b "progress" = JsValue.num 150 ∧
      ¬((0 : Int) ≤ 150 ∧ (150 : Int) ≤ 100) := by
  refine ⟨_, rfl, rfl, ?_⟩
  decide

/-- C5 (amended): creation of an async action sets `meta.progress` to 0 and
`succeedWith`/`failWith` always set it to exactly 100, but `continueWith`
stores exactly the supplied progress argument with no clamping, so its
resulting progress lies in [0, 100] only when the argument does. -/
theorem claimC5_progress_values (a p e : JsValue) (n : Int)
    (now fresh tnow type : String) (pl : JsValue)
    (h : isValidAction a = true) (ha : truthy (metaField a "async") = true) :
    metaField (createAsyncAction fresh tnow type pl) "progress" = JsValue.num 0 ∧
    metaField (createAsyncUniqueAction fresh tnow type pl) "progress" = JsValue.num 0 ∧
    (∃ b, continueWith p n now a = Except.ok b ∧
      metaField b "progress" = JsValue.num n) ∧
    (∃ c, succeedWith p now a = Except.ok c ∧
      metaField c "progress" = JsValue.num 100) ∧
    (∃ d, failWith e now a = Except.ok d ∧
      metaField d "progress" = JsValue.num 100) := by
  obtain ⟨fs, rfl⟩ := valid_exists_obj a h
  obtain ⟨ms, hm⟩ := valid_meta_exists_obj _ h
  refine ⟨rfl, rfl, ⟨_, continueWith_eq_ok p n now _ h ha, ?_⟩,
    ⟨_, succeedWith_eq_ok p now _ h ha, ?_⟩,
    ⟨_, failWith_eq_ok e now _ h ha, ?_⟩⟩ <;>
  · simp only [metaField]
    rw [hm]
    simp [objSpreadWith, getField, lookupF_setEntry]

/-- Witness for C5 (amended) at `sampleAsync` with progress argument 150. -/
theorem claimC5_witness :
    metaField (createAsyncAction "R7" "T7" "load" JsValue.null) "progress" = JsValue.num 0 ∧
    metaField (createAsyncUniqueAction "R7" "T7" "load" JsValue.null) "progress" = JsValue.num 0 ∧
    (∃ b, continueWith (JsValue.str "p") 150 "TIME-9" sampleAsync = Except.ok b ∧
      metaField b "progress" = JsValue.num 150) ∧
    (∃ c, succeedWith (JsValue.str "p") "TIME-9" sampleAsync = Except.ok c ∧
      metaField c "progress" = JsValue.num 100) ∧
    (∃ d, failWith (JsValue.errObj "bad") "TIME-9" sampleAsync = Except.ok d ∧
      metaField d "progress" = JsValue.num 100) :=
  claimC5_progress_values sampleAsync (JsValue.str "p") (JsValue.errObj "bad") 150
    "TIME-9" "R7" "T7" "load" JsValue.null (by rfl) (by rfl)

/-- C1: evaluation of the code at the failing input.  The sync branch of
`createAction` calls `createActionId(type, payload)` without the `uniq`
argument, so for options with `uniq = true` and `async` absent the id is the
deterministic `uuidv5` value: two calls with arbitrary distinct random draws
and clocks yield the same `meta.id`, even though `meta.uniq` is reported
true — while `createActionId` itself does honour `uniq`. -/
theorem claimC1_sync_uniq_id_deterministic (fresh₁ now₁ fresh₂ now₂ : String) :
    metaField (createAction fresh₁ now₁ "t" (JsValue.str "p")
        (JsValue.obj [("uniq", JsValue.bool true)])) "id"
      = metaField (createAction fresh₂ now₂ "t" (JsValue.str "p")
        (JsValue.obj [("uniq", JsValue.bool true)])) "id" ∧
    metaField (createAction fresh₁ now₁ "t" (JsValue.str "p")
        (JsValue.obj [("uniq", JsValue.bool true)])) "uniq" = JsValue.bool true ∧
    metaField (createAction fresh₁ now₁ "t" (JsValue.str "p")
        (JsValue.obj [("uniq", JsValue.bool true)])) "async" = JsValue.bool false ∧
    createActionId fresh₁ "t" (JsValue.str "p") true = fresh₁ :=
  ⟨rfl, rfl, rfl, rfl⟩

/-- C2 counterexample: with an Error payload, `createAction` returns an
action whose top-level `error` field is true, refuting the claim that it is
always false. -/
theorem claimC2_counterexample :
    getField (createAction "R" "T" "t" (JsValue.errObj "boom") JsValue.undefined) "error"
      = JsValue.bool true ∧
    ¬(getField (createAction "R" "T" "t" (JsValue.errObj "boom") JsValue.undefined) "error"
      = JsValue.bool false) :=
  ⟨rfl, fun hc => Bool.noConfusion (JsValue.bool.inj hc)⟩

/-- C2 (amended): for every type, payload and options, the action returned
by `createAction` — and hence by `createAsyncAction` and
`createAsyncUniqueAction` — has its top-level `error` field equal to
`payload instanceof Error`: false for every non-Error payload, true for
Error payloads. -/
theorem claimC2_error_field (fresh now type : String) (payload option : JsValue) :
    getField (createAction fresh now type payload option) "error"
      = JsValue.bool (instanceofError payload) ∧
    getField (createAsyncAction fresh now type payload) "error"
      = JsValue.bool (instanceofError payload) ∧
    getField (createAsyncUniqueAction fresh now type payload) "error"
      = JsValue.bool (instanceofError payload) :=
  ⟨rfl, rfl, rfl⟩

/-- C7: lineage round trip — `makeChildOf(parent)(child)` has `pidOfAction`
equal to `idOfAction(parent)` and `idOfAction` unchanged from the child, so
`isChildOf(parent)` accepts it; and `isChildOf(parent)` rejects every valid
action whose `meta.pid` differs from the parent `meta.id`. -/
theorem claimC7_lineage (parent child u : JsValue) (now : String)
    (hp : isValidAction parent = true) (hc : isValidAction child = true)
    (hu : isValidAction u = true)
    (hne : ¬(metaField u "pid" = metaField parent "id")) :
    ∃ r, makeChildOf now parent child = Except.ok r ∧
      pidOfAction r = idOfAction parent ∧
      idOfAction r = idOfAction child ∧
      isChildOf parent r = Except.ok true ∧
      isChildOf parent u = Except.ok false := by
  obtain ⟨fs, rfl⟩ := valid_exists_obj child hc
  obtain ⟨ms, hm⟩ := valid_meta_exists_obj _ hc
  have hr : isValidAction (objSpreadWith (JsValue.obj fs)
      [("meta", objSpreadWith (getField (JsValue.obj fs) "meta")
        [("pid", metaField parent "id"), ("utime", JsValue.str now)])]) = true :=
    isValidAction_objSpreadWith _ hc [] _
      [("pid", metaField parent "id"), ("utime", JsValue.str now)] rfl
      (by simp) (by simp [MetaProperties])
  have hpid : metaField (objSpreadWith (JsValue.obj fs)
      [("meta", objSpreadWith (getField (JsValue.obj fs) "meta")
        [("pid", metaField parent "id"), ("utime", JsValue.str now)])]) "pid"
      = metaField parent "id" := by
    simp only [metaField]
    rw [hm]
    simp [objSpreadWith, getField, lookupF_setEntry]
  have hid : metaField (objSpreadWith (JsValue.obj fs)
      [("meta", objSpreadWith (getField (JsValue.obj fs) "meta")
        [("pid", metaField parent "id"), ("utime", JsValue.str now)])]) "id"
      = metaField (JsValue.obj fs) "id" := by
    simp only [metaField]
    rw [hm]
    simp [objSpreadWith, getField, lookupF_setEntry]
  refine ⟨_, makeChildOf_eq_ok now parent _ hp hc, ?_, ?_, ?_, ?_⟩
  · simp only [pidOfAction, idOfAction, hr, hp, Bool.not_true, Bool.false_eq_true,
      if_false]
    rw [show (getField (getField (objSpreadWith (JsValue.obj fs)
      [("meta", objSpreadWith (getField (JsValue.obj fs) "meta")
        [("pid", metaField parent "id"), ("utime", JsValue.str now)])]) "meta") "pid")
      = metaField parent "id" from hpid]
    rfl
  · simp only [idOfAction, hr, hc, Bool.not_true, Bool.false_eq_true, if_false]
    rw [show (getField (getField (objSpreadWith (JsValue.obj fs)
      [("meta", objSpreadWith (getField (JsValue.obj fs) "meta")
        [("pid", metaField parent "id"), ("utime", JsValue.str now)])]) "meta") "id")
      = metaField (JsValue.obj fs) "id" from hid]
    rfl
  · simp only [isChildOf, hp, hr, Bool.not_true, Bool.false_eq_true, if_false,
      Bool.false_or]
    rw [show (getField (getField (objSpreadWith (JsValue.obj fs)
      [("meta", objSpreadWith (getField (JsValue.obj fs) "meta")
        [("pid", metaField parent "id"), ("utime", JsValue.str now)])]) "meta") "pid")
      = metaField parent "id" from hpid]
    simp only [metaField]
    rw [beqJs_refl]
  · simp only [isChildOf, hp, hu, Bool.not_true, Bool.false_eq_true, if_false,
      Bool.false_or]
    cases hbe : beqJs (getField (getField parent "meta") "id")
        (getField (getField u "meta") "pid") with
    | true =>
        exact absurd (beqJs_sound _ _ hbe).symm hne
    | false => rfl

/-- C8: every async-only operation — `isStarted`, `isRunning`, `isFinished`,
`continueWith`, `succeedWith`, `failWith` — throws on any input that is not
a valid action with a truthy `meta.async` (covering both structurally
invalid values and valid sync actions). -/
theorem claimC8_async_only_throws (v p e : JsValue) (n : Int) (now : String)
    (h : ¬(isValidAction v = true ∧ truthy (metaField v "async") = true)) :
    throws (isStarted v) = true ∧
    throws (isRunning v) = true ∧
    throws (isFinished v) = true ∧
    throws (continueWith p n now v) = true ∧
    throws (succeedWith p now v) = true ∧
    throws (failWith e now v) = true := by
  by_cases hv : isValidAction v = true
  · have hta : truthy (metaField v "async") = false := by
      rcases Bool.eq_false_or_eq_true (truthy (metaField v "async")) with h0 | h0
      · exact absurd ⟨hv, h0⟩ h
      · exact h0
    simp only [metaField] at hta
    refine ⟨?_, ?_, ?_, ?_, ?_, ?_⟩ <;>
      simp [isStarted, isRunning, isFinished, continueWith, succeedWith, failWith,
        isAsync, hv, hta, throws]
  · have hv2 : isValidAction v = false := by simpa using hv
    refine ⟨?_, ?_, ?_, ?_, ?_, ?_⟩ <;>
      simp [isStarted, isRunning, isFinished, continueWith, succeedWith, failWith,
        isAsync, hv2, throws]

/-- Witness for C8 at the concrete valid sync action `sampleSync`. -/
theorem claimC8_witness :
    throws (isStarted sampleSync) = true ∧
    throws (isRunning sampleSync) = true ∧
    throws (isFinished sampleSync) = true ∧
    throws (continueWith (JsValue.str "p") 5 "TIME-9" sampleSync) = true ∧
    throws (succeedWith (JsValue.str "p") "TIME-9" sampleSync) = true ∧
    throws (failWith (JsValue.errObj "bad") "TIME-9" sampleSync) = true :=
  claimC8_async_only_throws sampleSync (JsValue.str "p") (JsValue.errObj "bad") 5 "TIME-9"
    (by decide)

/-- Witness for C7 at concrete actions: `sampleParent` as parent,
`sampleSync` as child, `sampleAsync` (whose `meta.pid` is undefined) as the
unrelated action. -/
theorem claimC7_witness :
    ∃ r, makeChildOf "TIME-9" sampleParent sampleSync = Except.ok r ∧
      pidOfAction r = idOfAction sampleParent ∧
      idOfAction r = idOfAction sampleSync ∧
      isChildOf sampleParent r = Except.ok true ∧
      isChildOf sampleParent sampleAsync = Except.ok false :=
  claimC7_lineage sampleParent sampleSync sampleAsync "TIME-9" (by rfl) (by rfl) (by rfl)
    (fun hc => JsValue.noConfusion hc)

theorem bool_eq_of_true_iff {a b : Bool} (h : (a = true) ↔ (b = true)) : a = b := by
  cases a <;> cases b <;> simp_all

theorem mem_of_lookupF_some {fs : List (String × JsValue)} {k : String} {x : JsValue}
    (h : lookupF fs k = some x) : k ∈ fs.map Prod.fst := by
  obtain ⟨p, hp⟩ : ∃ p, fs.find? (fun q => q.1 == k) = some p := by
    cases hf : fs.find? (fun q => q.1 == k) with
    | none => simp [lookupF, hf] at h
    | some p => exact ⟨p, rfl⟩
  have h1 : p.1 = k := by simpa using List.find?_some hp
  exact h1 ▸ List.mem_map_of_mem Prod.fst (List.mem_of_find?_eq_some hp)

theorem all_congr_of_mem_iff {l₁ l₂ : List String} (P : String → Bool)
    (h : ∀ x, x ∈ l₁ ↔ x ∈ l₂) : l₁.all P = l₂.all P := by
  apply bool_eq_of_true_iff
  simp only [List.all_eq_true]
  constructor
  · intro hall x hx
    exact hall x ((h x).mpr hx)
  · intro hall x hx
    exact hall x ((h x).mp hx)

theorem isValidAction_set_top (a v : JsValue) (k : String)
    (hk : hasKey a k = true) (hk1 : ¬(k = "type")) (hk2 : ¬(k = "meta")) :
    isValidAction (objSpreadWith a [(k, v)]) = isValidAction a := by
  cases a with
  | obj fs =>
      have hkin : k ∈ fs.map Prod.fst := (hasKey_obj_iff fs k).mp hk
      have hmem : ∀ l, l ∈ (setEntry fs k v).map Prod.fst ↔ l ∈ fs.map Prod.fst := by
        intro l
        rw [mem_map_fst_setEntry]
        constructor
        · rintro (rfl | h2)
          · exact hkin
          · exact h2
        · exact Or.inr
      have hget : ∀ l, ¬(l = k) →
          getField (JsValue.obj (setEntry fs k v)) l = getField (JsValue.obj fs) l := by
        intro l hl
        simp only [getField]
        rw [lookupF_setEntry, if_neg hl]
      have hspread : objSpreadWith (JsValue.obj fs) [(k, v)] = JsValue.obj (setEntry fs k v) := by
        simp [objSpreadWith]
      rw [hspread]
      have e2 : ActionRequiredProperties.all (fun kk => hasKey (JsValue.obj (setEntry fs k v)) kk)
          = ActionRequiredProperties.all (fun kk => hasKey (JsValue.obj fs) kk) := by
        apply bool_eq_of_true_iff
        simp only [List.all_eq_true]
        constructor
        · intro hall x hx
          rw [hasKey_obj_iff, ← hmem x, ← hasKey_obj_iff]
          exact hall x hx
        · intro hall x hx
          rw [hasKey_obj_iff, hmem x, ← hasKey_obj_iff]
          exact hall x hx
      have e3 : (keys (JsValue.obj (setEntry fs k v))).all (fun kk => ActionProperties.contains kk)
          = (keys (JsValue.obj fs)).all (fun kk => ActionProperties.contains kk) :=
        all_congr_of_mem_iff _ hmem
      simp only [isValidAction, e2, e3, hget "type" (fun e => hk1 e.symm),
        hget "meta" (fun e => hk2 e.symm), isPlainObject]
  | undefined => simp [hasKey] at hk
  | null => simp [hasKey] at hk
  | bool b => simp [hasKey] at hk
  | num n => simp [hasKey] at hk
  | str s => simp [hasKey] at hk
  | arr xs => simp [hasKey] at hk
  | errObj m => simp [hasKey] at hk
  | func m => simp [hasKey] at hk
  | inst m => simp [hasKey] at hk

theorem isValidAction_set_meta (a v : JsValue) (k : String)
    (hk : hasKey (getField a "meta") k = true) (hk1 : ¬(k = "sign")) :
    isValidAction (objSpreadWith a [("meta", objSpreadWith (getField a "meta") [(k, v)])])
      = isValidAction a := by
  cases a with
  | obj fs =>
      cases hmv : getField (JsValue.obj fs) "meta" with
      | obj ms =>
          have hlk : lookupF fs "meta" = some (JsValue.obj ms) := by
            simp only [getField] at hmv
            cases hl : lookupF fs "meta" with
            | none => simp [hl] at hmv
            | some x =>
                rw [hl] at hmv
                simp at hmv
                rw [hmv]
          have hmetain : "meta" ∈ fs.map Prod.fst := mem_of_lookupF_some hlk
          rw [hmv] at hk
          have hkin : k ∈ ms.map Prod.fst := (hasKey_obj_iff ms k).mp hk
          have hsp1 : objSpreadWith (JsValue.obj ms) [(k, v)]
              = JsValue.obj (setEntry ms k v) := by
            simp [objSpreadWith]
          rw [hsp1]
          have hsp2 : objSpreadWith (JsValue.obj fs)
              [("meta", JsValue.obj (setEntry ms k v))]
              = JsValue.obj (setEntry fs "meta" (JsValue.obj (setEntry ms k v))) := by
            simp [objSpreadWith]
          rw [hsp2]
          have hmem : ∀ l, l ∈ (setEntry fs "meta" (JsValue.obj (setEntry ms k v))).map Prod.fst
              ↔ l ∈ fs.map Prod.fst := by
            intro l
            rw [mem_map_fst_setEntry]
            constructor
            · rintro (rfl | h2)
              · exact hmetain
              · exact h2
            · exact Or.inr
          have hmmem : ∀ l, l ∈ (setEntry ms k v).map Prod.fst ↔ l ∈ ms.map Prod.fst := by
            intro l
            rw [mem_map_fst_setEntry]
            constructor
            · rintro (rfl | h2)
              · exact hkin
              · exact h2
            · exact Or.inr
          have hget : ∀ l, ¬(l = "meta") →
              getField (JsValue.obj (setEntry fs "meta" (JsValue.obj (setEntry ms k v)))) l
                = getField (JsValue.obj fs) l := by
            intro l hl
            simp only [getField]
            rw [lookupF_setEntry, if_neg hl]
          have hgetmeta :
              getField (JsValue.obj (setEntry fs "meta" (JsValue.obj (setEntry ms k v)))) "meta"
                = JsValue.obj (setEntry ms k v) := by
            simp only [getField]
            rw [lookupF_setEntry]
            simp
          have hmget : ∀ l, ¬(l = k) →
              getField (JsValue.obj (setEntry ms k v)) l = getField (JsValue.obj ms) l := by
            intro l hl
            simp only [getField]
            rw [lookupF_setEntry, if_neg hl]
          have e2 : (ActionRequiredProperties.all (fun kk =>
                hasKey (JsValue.obj (setEntry fs "meta" (JsValue.obj (setEntry ms k v)))) kk))
              = ActionRequiredProperties.all (fun kk => hasKey (JsValue.obj fs) kk) := by
            apply bool_eq_of_true_iff
            simp only [List.all_eq_true]
            constructor
            · intro hall x hx
              rw [hasKey_obj_iff, ← hmem x, ← hasKey_obj_iff]
              exact hall x hx
            · intro hall x hx
              rw [hasKey_obj_iff, hmem x, ← hasKey_obj_iff]
              exact hall x hx
          have e3 : ((keys (JsValue.obj (setEntry fs "meta" (JsValue.obj (setEntry ms k v))))).all
                (fun kk => ActionProperties.contains kk))
              = (keys (JsValue.obj fs)).all (fun kk => ActionProperties.contains kk) :=
            all_congr_of_mem_iff _ hmem
          have e6 : (MetaRequiredProperties.all (fun kk =>
                hasKey (JsValue.obj (setEntry ms k v)) kk))
              = MetaRequiredProperties.all (fun kk => hasKey (JsValue.obj ms) kk) := by
            apply bool_eq_of_true_iff
            simp only [List.all_eq_true]
            constructor
            · intro hall x hx
              rw [hasKey_obj_iff, ← hmmem x, ← hasKey_obj_iff]
              exact hall x hx
            · intro hall x hx
              rw [hasKey_obj_iff, hmmem x, ← hasKey_obj_iff]
              exact hall x hx
          have e7 : ((keys (JsValue.obj (setEntry ms k v))).all
                (fun kk => MetaProperties.contains kk))
              = (keys (JsValue.obj ms)).all (fun kk => MetaProperties.contains kk) :=
            all_congr_of_mem_iff _ hmmem
          simp only [isValidAction, isPlainObject, e2, e3, hget "type" (by simp), hgetmeta,
            hmv, e6, e7, hmget "sign" (fun e => hk1 e.symm)]
      | undefined => rw [hmv] at hk; simp [hasKey] at hk
      | null => rw [hmv] at hk; simp [hasKey] at hk
      | bool b => rw [hmv] at hk; simp [hasKey] at hk
      | num n => rw [hmv] at hk; simp [hasKey] at hk
      | str s => rw [hmv] at hk; simp [hasKey] at hk
      | arr xs => rw [hmv] at hk; simp [hasKey] at hk
      | errObj m => rw [hmv] at hk; simp [hasKey] at hk
      | func m => rw [hmv] at hk; simp [hasKey] at hk
      | inst m => rw [hmv] at hk; simp [hasKey] at hk
  | undefined => simp [getField, hasKey] at hk
  | null => simp [getField, hasKey] at hk
  | bool b => simp [getField, hasKey] at hk
  | num n => simp [getField, hasKey] at hk
  | str s => simp [getField, hasKey] at hk
  | arr xs => simp [getField, hasKey] at hk
  | errObj m => simp [getField, hasKey] at hk
  | func m => simp [getField, hasKey] at hk
  | inst m => simp [getField, hasKey] at hk

/-- C9: `isValidAction` inspects only shape — replacing the value stored at
a present top-level `payload` or `error` key, or at any present meta key
other than `sign` (`id`, `pid`, `ctime`, `utime`, `async`, `uniq`, `phase`,
`progress`), never changes the verdict; and the concrete well-shaped record
`weirdAction` — `error` a string, `id` a number, `ctime` null, a function as
payload, `async` a non-boolean — still satisfies `isValidAction`. -/
theorem claimC9_validator_shape_only :
    (∀ a v : JsValue, ∀ k ∈ (["payload", "error"] : List String), hasKey a k = true →
      isValidAction (objSpreadWith a [(k, v)]) = isValidAction a) ∧
    (∀ a v : JsValue,
      ∀ k ∈ (["id", "pid", "ctime", "utime", "async", "uniq", "phase", "progress"] :
        List String),
      hasKey (getField a "meta") k = true →
      isValidAction (objSpreadWith a [("meta", objSpreadWith (getField a "meta") [(k, v)])])
        = isValidAction a) ∧
    isValidAction weirdAction = true := by
  refine ⟨?_, ?_, rfl⟩
  · intro a v k hkmem hk
    fin_cases hkmem <;> exact isValidAction_set_top a v _ hk (by simp) (by simp)
  · intro a v k hkmem hk
    fin_cases hkmem <;> exact isValidAction_set_meta a v _ hk (by simp)

/-- Witness for C9: replacing the `error` value of `weirdAction` by a number
leaves the verdict unchanged. -/
theorem claimC9_witness :
    isValidAction (objSpreadWith weirdAction [("error", JsValue.num 7)])
      = isValidAction weirdAction :=
  claimC9_validator_shape_only.1 weirdAction (JsValue.num 7) "error" (by simp) (by rfl)
